import Mathlib

/-!
# Verification of the mailcatcher intake/store core

A shallow embedding of the mailcatcher repository (`server.go`,
`default.go`, `cmd/mailcatcher/main.go`) in Lean 4, together with proofs
of the specification's testable properties.

Modelling conventions:
* Go byte strings are modelled as `List Char` / `String`, with each `Char`
  standing for one byte.  All concrete inputs used below are ASCII, where
  this identification is exact.
* Go's `bufio.Scanner` with the default `ScanLines` split function is
  modelled including its default 64 KiB maximum token size
  (`bufio.MaxScanTokenSize`), since `parseSubject` constructs the scanner
  with `bufio.NewScanner` and never raises the buffer limit.
* `strings.ToLower` and `strings.TrimSpace` are modelled on their
  ASCII / Latin-1 behaviour (the only case exercised here).
* The store `[]Email` is a `List Email`; `time.Now()` is an explicit
  `Nat` parameter threaded into the operations that read the clock.
-/

namespace Mailcatcher

/-! ## Characters: Go `unicode.IsSpace` and `strings.ToLower` (ASCII scope) -/

/-- The whitespace set of Go's `unicode.IsSpace` restricted to Latin-1:
`'\t'`, `'\n'`, `'\v'`, `'\f'`, `'\r'`, `' '`, U+0085, U+00A0. -/
def goIsSpace (c : Char) : Bool :=
  c = ' ' || c = '\t' || c = '\n' || c = Char.ofNat 11 || c = Char.ofNat 12 ||
    c = '\r' || c = Char.ofNat 0x85 || c = Char.ofNat 0xA0

/-- Go `strings.TrimSpace`: drop leading and trailing whitespace. -/
def trimSpace (l : List Char) : List Char :=
  ((l.dropWhile goIsSpace).reverse.dropWhile goIsSpace).reverse

/-! ## `bufio.Scanner` with `ScanLines` (as used by `parseSubject`) -/

/-- Split the input at its first `'\n'`: returns the bytes before it and,
when a newline exists, `some` of the bytes after it. -/
def splitFirstLine : List Char → List Char × Option (List Char)
  | [] => ([], none)
  | c :: rest =>
    if c = '\n' then ([], some rest)
    else
      let (tok, r) := splitFirstLine rest
      (c :: tok, r)

/-- Function `dropCR` from `bufio.ScanLines`: drop one trailing `'\r'`. -/
def dropCR (l : List Char) : List Char :=
  if l.getLast? = some '\r' then l.dropLast else l

/-- Constant `bufio.MaxScanTokenSize`, the default token-size limit of a scanner
built with `bufio.NewScanner`. -/
def maxScanTokenSize : Nat := 65536

/-- One `Scanner.Scan` step with the `ScanLines` split function and the
default buffer limit.  Returns `none` when input is exhausted or when the
next line does not fit in the scan buffer (Go: `Scan` returns `false`,
in the latter case with `ErrTooLong`); otherwise the line (without its
terminator, one trailing `'\r'` dropped) and the remaining input. -/
def scanLine (s : List Char) : Option (List Char × List Char) :=
  if s.isEmpty then none
  else
    match splitFirstLine s with
    | (tok, some rest) =>
      -- the buffered bytes are the token plus its '\n'
      if tok.length + 1 ≤ maxScanTokenSize then some (dropCR tok, rest) else none
    | (tok, none) =>
      -- final token at EOF: the buffer must not fill completely first
      if tok.length < maxScanTokenSize then some (dropCR tok, []) else none

/-! ## `parseSubject` (server.go lines 290-307) -/

/-- The key `"subject:"` as scanned for by `parseSubject`. -/
def subjectKey : List Char := "subject:".toList

/-- The scan loop of `parseSubject`.  The `fuel` argument is only a
termination device: every successful scan strictly shortens the input, so
the fuel `s.length + 1` supplied by `parseSubject` never runs out. -/
def parseSubjectLoop : Nat → List Char → String
  | 0, _ => ""
  | fuel + 1, s =>
    match scanLine s with
    | none => ""
    | some (line, rest) =>
      if line = [] then ""
      else if subjectKey.isPrefixOf (line.map Char.toLower) then
        (trimSpace (line.drop 8)).asString
      else parseSubjectLoop fuel rest

/-- Function `parseSubject` from server.go: scan the body line by line; an empty
line ends the header section; a line whose lowercasing starts with
`"subject:"` yields the trimmed remainder after the first 8 bytes. -/
def parseSubject (body : String) : String :=
  parseSubjectLoop (body.toList.length + 1) body.toList

example : parseSubject "Subject: Hello\r\n\r\nBody" = "Hello" := by decide
example : parseSubject "just text" = "" := by decide
example : parseSubject "SUBJECT:   spaced  \r\n\r\n" = "spaced" := by decide
example : parseSubject "Subject: first\r\nSubject: second\r\n\r\nB" = "first" := by decide
example : parseSubject "X-Foo: 1\r\nsUbJeCt:\tT\r\n\r\n" = "T" := by decide
example : parseSubject "\r\nSubject: late\r\n" = "" := by decide

/-! ## The message store (server.go: `Server.messages` and its methods) -/

/-- A captured email message (server.go `Email`).  `time.Time` is
modelled as a `Nat`. -/
structure Email where
  id : String
  fromAddr : String
  toAddrs : List String
  subject : String
  body : String
  time : Nat
deriving DecidableEq, Repr

/-- The identifier assigned at append time:
`fmt.Sprintf("msg-%d", n)`. -/
def msgId (n : Nat) : String := "msg-" ++ Nat.repr n

/-- Method `Server.addMessage`: assign the identifier from the current list
length and the current time, then append at the tail.  `now` stands for
`time.Now()`. -/
def addMessage (messages : List Email) (email : Email) (now : Nat) : List Email :=
  messages ++ [{ email with id := msgId messages.length, time := now }]

/-- Method `Server.Emails`: a snapshot copy of all captured messages, in order.
On the model a copy is the list itself. -/
def Emails (messages : List Email) : List Email :=
  messages

/-- Method `Server.Email`: linear scan for the first message with the given id;
`none` models the `nil` pointer returned when no message matches. -/
def emailById (messages : List Email) (id : String) : Option Email :=
  match messages with
  | [] => none
  | m :: rest => if m.id = id then some m else emailById rest id

/-- Method `Server.Clear`: replace the collection with a fresh empty one. -/
def Clear (_ : List Email) : List Email :=
  []

/-! ## HTTP handler for GET /api/v1/emails/{id} (server.go 204-222) -/

/-- The observable outcome of `handleGetEmail`: a status code, the JSON
email payload when one is written, and the plain-text error otherwise. -/
structure GetEmailResponse where
  status : Nat
  jsonEmail : Option Email
  errText : Option String
deriving DecidableEq, Repr

/-- Handler `Server.handleGetEmail`, given the id extracted from the URL path
(the suffix after `"/api/v1/emails/"`): empty id → 400, unknown id →
404, otherwise 200 with the JSON-encoded email. -/
def handleGetEmail (messages : List Email) (id : String) : GetEmailResponse :=
  if id = "" then ⟨400, none, some "Email ID is required"⟩
  else
    match emailById messages id with
    | none => ⟨404, none, some "Email not found"⟩
    | some e => ⟨200, some e, none⟩

/-! ## The SMTP session (server.go 239-287) -/

/-- Per-connection session state: the envelope sender and the
accumulated recipients (`session.from`, `session.to`; the latter is
named `toAddrs` since `to` is reserved in Lean). -/
structure Session where
  fromAddr : String
  toAddrs : List String
deriving DecidableEq, Repr

/-- Method `session.Mail`: record the envelope sender. -/
def sessionMail (sess : Session) (f : String) : Session :=
  { sess with fromAddr := f }

/-- Method `session.Rcpt`: append one recipient. -/
def sessionRcpt (sess : Session) (t : String) : Session :=
  { sess with toAddrs := sess.toAddrs ++ [t] }

/-- Method `session.Reset`: clear the sender and the recipient list
(`s.from = ""`, `s.to = nil`).  The method touches only the session. -/
def sessionReset (_ : Session) : Session :=
  { fromAddr := "", toAddrs := [] }

/-- Method `session.Reset` lifted to the full observable state: the server's
message store is untouched because the method assigns only session
fields. -/
def resetStep (messages : List Email) (sess : Session) : List Email × Session :=
  (messages, sessionReset sess)

/-- Method `session.Data`.  Argument `readResult` is the outcome of `io.ReadAll r`:
on a read error the transaction aborts with a wrapped error and neither
the store nor the session changes; otherwise the subject is parsed from
the body and the finished message is appended via `addMessage`.  The
session fields are returned unchanged in both branches, as `Data` never
assigns them. -/
def sessionData (messages : List Email) (sess : Session)
    (readResult : Except String String) (now : Nat) :
    (List Email × Session) × Except String Unit :=
  match readResult with
  | .error e => ((messages, sess), .error ("failed to read email data: " ++ e))
  | .ok body =>
    let subject := parseSubject body
    let email : Email :=
      { id := "", fromAddr := sess.fromAddr, toAddrs := sess.toAddrs,
        subject := subject, body := body, time := 0 }
    ((addMessage messages email now, sess), .ok ())

/-- The SMTP server's configured line-length limit from `New`:
`s.smtpServer.MaxLineLength = 16 * 1024 * 1024`. -/
def maxLineLength : Nat := 16 * 1024 * 1024

/-! ## Port configuration (default.go `getEnvInt`, main.go flag/env logic) -/

/-- ASCII decimal digit test. -/
def isDigitChar (c : Char) : Bool := '0' ≤ c && c ≤ '9'

/-- Value of a run of decimal digit characters. -/
def digitsVal (l : List Char) : Nat :=
  l.foldl (fun acc c => 10 * acc + (c.toNat - 48)) 0

/-- Function `strconv.Atoi`: an optional sign followed by a nonempty all-digit
string, rejecting anything else and values outside the 64-bit signed
range (both cases make `Atoi` return an error). -/
def atoi (s : String) : Option Int :=
  let (neg, digits) :=
    match s.toList with
    | '+' :: r => (false, r)
    | '-' :: r => (true, r)
    | r => (false, r)
  if digits.isEmpty then none
  else if digits.all isDigitChar then
    let v : Int := if neg then -(digitsVal digits : Int) else (digitsVal digits : Int)
    if -(2 ^ 63) ≤ v ∧ v ≤ 2 ^ 63 - 1 then some v else none
  else none

/-- Function `getEnvInt` from default.go: `value` is `os.Getenv(key)` (the empty
string when the variable is unset); an unset variable or a failed
`strconv.Atoi` falls back to the compiled default. -/
def getEnvInt (value : String) (defaultValue : Int) : Int :=
  if value = "" then defaultValue
  else
    match atoi value with
    | none => defaultValue
    | some v => v

/-- Call `fmt.Sscanf(port, "%d", ...)` as used in main.go: skip leading
blanks, then an optional sign and a nonempty digit run; trailing input is
ignored; out-of-range values error.  `none` models a scan error, in which
case main keeps the flag's current value. -/
def sscanfInt (s : String) : Option Int :=
  let l := s.toList.dropWhile fun c => c = ' ' || c = '\t'
  let (neg, rest) :=
    match l with
    | '+' :: r => (false, r)
    | '-' :: r => (true, r)
    | r => (false, r)
  let digits := rest.takeWhile isDigitChar
  if digits.isEmpty then none
  else
    let v : Int := if neg then -(digitsVal digits : Int) else (digitsVal digits : Int)
    if -(2 ^ 63) ≤ v ∧ v ≤ 2 ^ 63 - 1 then some v else none

/-- Port resolution in `main` for one port: the flag variable starts at
the passed value (or the compiled default when not passed); only when the
flag was not passed and the environment variable is non-empty does a
successful scan of the environment value overwrite it. -/
def resolvePort (flagPassed : Bool) (flagValue : Int) (envValue : String) : Int :=
  if !flagPassed && envValue ≠ "" then
    match sscanfInt envValue with
    | some v => v
    | none => flagValue
  else flagValue

example : atoi "2525" = some 2525 := by decide
example : atoi "12abc" = none := by decide
example : atoi "-42" = some (-42) := by decide
example : atoi "" = none := by decide
example : sscanfInt "12abc" = some 12 := by decide
example : sscanfInt "abc" = none := by decide
example : getEnvInt "" 1025 = 1025 := by decide
example : getEnvInt "9000" 1025 = 9000 := by decide
example : resolvePort true 2525 "7000" = 2525 := by decide
example : resolvePort false 1025 "7000" = 7000 := by decide
example : resolvePort false 1025 "" = 1025 := by decide
example : resolvePort false 1025 "nope" = 1025 := by decide

/-! ## Scanner lemmas -/

theorem splitFirstLine_no_newline (s : List Char) (h : '\n' ∉ s) :
    splitFirstLine s = (s, none) := by
  induction s with
  | nil => rfl
  | cons c rest ih =>
    simp only [List.mem_cons, not_or] at h
    simp [splitFirstLine, Ne.symm h.1, ih h.2]

theorem splitFirstLine_append (t rest : List Char) (h : '\n' ∉ t) :
    splitFirstLine (t ++ '\n' :: rest) = (t, some rest) := by
  induction t with
  | nil => simp [splitFirstLine]
  | cons c cs ih =>
    simp only [List.mem_cons, not_or] at h
    simp [splitFirstLine, Ne.symm h.1, ih h.2]

theorem splitFirstLine_some_length :
    ∀ {s tok rest : List Char}, splitFirstLine s = (tok, some rest) →
      rest.length < s.length := by
  intro s
  induction s with
  | nil => intro tok rest h; simp [splitFirstLine] at h
  | cons c cs ih =>
    intro tok rest h
    by_cases hc : c = '\n'
    · simp [splitFirstLine, hc] at h
      simp [h.2]
    · simp only [splitFirstLine, if_neg hc] at h
      rcases h2 : splitFirstLine cs with ⟨tok', r'⟩
      rw [h2] at h
      cases r' with
      | none => simp at h
      | some r =>
        simp only [Prod.mk.injEq, Option.some.injEq] at h
        obtain ⟨-, hr⟩ := h
        subst hr
        have := ih (show splitFirstLine cs = (tok', some r) from h2)
        simp only [List.length_cons]
        omega

theorem scanLine_rest_length {s tok rest : List Char}
    (h : scanLine s = some (tok, rest)) : rest.length < s.length := by
  by_cases hs : s = []
  · subst hs; simp [scanLine] at h
  · have hne : s.isEmpty = false := by simpa [List.isEmpty_iff] using hs
    have hpos : 0 < s.length := List.length_pos.mpr hs
    rcases h2 : splitFirstLine s with ⟨tok', r'⟩
    cases r' with
    | none =>
      have he : scanLine s =
          if tok'.length < maxScanTokenSize then some (dropCR tok', []) else none := by
        simp [scanLine, hne, h2]
      rw [he] at h
      split at h
      · simp only [Option.some.injEq, Prod.mk.injEq] at h
        obtain ⟨-, hr⟩ := h
        rw [← hr]
        simpa using hpos
      · exact absurd h (by simp)
    | some r =>
      have he : scanLine s =
          if tok'.length + 1 ≤ maxScanTokenSize then some (dropCR tok', r) else none := by
        simp [scanLine, hne, h2]
      rw [he] at h
      split at h
      · simp only [Option.some.injEq, Prod.mk.injEq] at h
        obtain ⟨-, hr⟩ := h
        subst hr
        exact splitFirstLine_some_length h2
      · exact absurd h (by simp)

/-- Function `parseSubject` on a character list, with the canonical fuel. -/
def parseSubjectList (s : List Char) : String :=
  parseSubjectLoop (s.length + 1) s

theorem parseSubject_eq_list (body : String) :
    parseSubject body = parseSubjectList body.toList := rfl

/-- The fuel is irrelevant as long as it exceeds the input length. -/
theorem parseSubjectLoop_congr :
    ∀ (f₁ : Nat) {f₂ : Nat} {s : List Char}, s.length < f₁ → s.length < f₂ →
      parseSubjectLoop f₁ s = parseSubjectLoop f₂ s := by
  intro f₁
  induction f₁ with
  | zero => intro f₂ s h₁ _; omega
  | succ f ih =>
    intro f₂ s h₁ h₂
    cases f₂ with
    | zero => omega
    | succ f₂ =>
      simp only [parseSubjectLoop]
      cases h : scanLine s with
      | none => rfl
      | some p =>
        rcases p with ⟨line, rest⟩
        have hr := scanLine_rest_length h
        by_cases hl : line = []
        · simp [hl]
        · simp only [hl, if_false]
          split
          · rfl
          · exact ih (by omega) (by omega)

/-- One unfolding of the scan loop at the canonical fuel. -/
theorem parseSubjectList_eq (s : List Char) :
    parseSubjectList s =
      match scanLine s with
      | none => ""
      | some (line, rest) =>
        if line = [] then ""
        else if subjectKey.isPrefixOf (line.map Char.toLower) then
          (trimSpace (line.drop 8)).asString
        else parseSubjectList rest := by
  show parseSubjectLoop (s.length + 1) s = _
  simp only [parseSubjectLoop]
  cases h : scanLine s with
  | none => rfl
  | some p =>
    rcases p with ⟨line, rest⟩
    have hr := scanLine_rest_length h
    by_cases hl : line = []
    · simp [hl]
    · simp only [hl, if_false]
      split
      · rfl
      · exact parseSubjectLoop_congr _ (by omega) (by omega)

theorem parseSubjectList_scan_none {s : List Char} (h : scanLine s = none) :
    parseSubjectList s = "" := by
  rw [parseSubjectList_eq, h]

theorem parseSubjectList_scan_some {s line rest : List Char}
    (h : scanLine s = some (line, rest)) :
    parseSubjectList s =
      if line = [] then ""
      else if subjectKey.isPrefixOf (line.map Char.toLower) then
        (trimSpace (line.drop 8)).asString
      else parseSubjectList rest := by
  rw [parseSubjectList_eq, h]

/-! ## Injectivity of `Nat.repr` (identifiers `msg-<n>` are distinct) -/

/-- The big-endian decimal digit characters of `n`, as produced by
`Nat.toDigitsCore` with sufficient fuel. -/
def decimalDigits (n : Nat) : List Char :=
  if n < 10 then [Nat.digitChar n]
  else decimalDigits (n / 10) ++ [Nat.digitChar (n % 10)]
decreasing_by exact Nat.div_lt_self (by omega) (by omega)

theorem toDigitsCore_append (b : Nat) :
    ∀ (fuel n : Nat) (ds : List Char),
      Nat.toDigitsCore b fuel n ds = Nat.toDigitsCore b fuel n [] ++ ds := by
  intro fuel
  induction fuel with
  | zero => intro n ds; simp [Nat.toDigitsCore]
  | succ f ih =>
    intro n ds
    simp only [Nat.toDigitsCore]
    split
    · rfl
    · rw [ih (n / b) (Nat.digitChar (n % b) :: ds), ih (n / b) [Nat.digitChar (n % b)]]
      simp

theorem decimalDigits_lt {n : Nat} (h : n < 10) :
    decimalDigits n = [Nat.digitChar n] := by
  rw [decimalDigits, if_pos h]

theorem decimalDigits_ge {n : Nat} (h : ¬n < 10) :
    decimalDigits n = decimalDigits (n / 10) ++ [Nat.digitChar (n % 10)] := by
  rw [decimalDigits, if_neg h]

theorem toDigitsCore_eq_decimalDigits :
    ∀ (f n : Nat), 0 < f → n < 10 ^ f →
      Nat.toDigitsCore 10 f n [] = decimalDigits n := by
  intro f
  induction f with
  | zero => intro n h _; omega
  | succ f ih =>
    intro n _ hlt
    simp only [Nat.toDigitsCore]
    by_cases hdiv : n / 10 = 0
    · have hn : n < 10 := by omega
      rw [if_pos hdiv, decimalDigits_lt hn, Nat.mod_eq_of_lt hn]
    · have hn : 10 ≤ n := by omega
      have hdivlt : n / 10 < 10 ^ f := by
        rw [Nat.div_lt_iff_lt_mul (by omega)]
        calc n < 10 ^ (f + 1) := hlt
        _ = 10 ^ f * 10 := by rw [pow_succ]
      have hfpos : 0 < f := by
        rcases Nat.eq_zero_or_pos f with hf | hf
        · subst hf; simp [Nat.lt_one_iff] at hdivlt; omega
        · exact hf
      rw [if_neg hdiv, toDigitsCore_append, ih (n / 10) hfpos hdivlt,
        ← decimalDigits_ge (by omega)]

theorem toDigits_eq_decimalDigits (n : Nat) :
    Nat.toDigits 10 n = decimalDigits n := by
  have h1 : n < 2 ^ n := Nat.lt_two_pow n
  have h2 : (2 : Nat) ^ n ≤ 10 ^ n := Nat.pow_le_pow_left (by omega) n
  have h3 : (10 : Nat) ^ n ≤ 10 ^ (n + 1) := Nat.pow_le_pow_right (by omega) (by omega)
  exact toDigitsCore_eq_decimalDigits (n + 1) n (by omega) (by omega)

theorem digitChar_injOn :
    ∀ m < 10, ∀ n < 10, Nat.digitChar m = Nat.digitChar n → m = n := by decide

theorem decimalDigits_ne_nil (n : Nat) : decimalDigits n ≠ [] := by
  rw [decimalDigits]
  split <;> simp

theorem decimalDigits_inj :
    ∀ (m n : Nat), decimalDigits m = decimalDigits n → m = n := by
  intro m
  induction m using Nat.strong_induction_on with
  | _ m ih =>
    intro n h
    by_cases hm : m < 10 <;> by_cases hn : n < 10
    · rw [decimalDigits_lt hm, decimalDigits_lt hn] at h
      simp only [List.cons.injEq, and_true] at h
      exact digitChar_injOn m hm n hn h
    · exfalso
      rw [decimalDigits_lt hm, decimalDigits_ge hn] at h
      have hlen := congrArg List.length h
      simp only [List.length_cons, List.length_append, List.length_nil] at hlen
      exact decimalDigits_ne_nil (n / 10) (List.length_eq_zero.mp (by omega))
    · exfalso
      rw [decimalDigits_ge hm, decimalDigits_lt hn] at h
      have hlen := congrArg List.length h
      simp only [List.length_cons, List.length_append, List.length_nil] at hlen
      exact decimalDigits_ne_nil (m / 10) (List.length_eq_zero.mp (by omega))
    · rw [decimalDigits_ge hm, decimalDigits_ge hn] at h
      obtain ⟨h1, h2⟩ := List.append_inj' h (by simp)
      have hd : m / 10 = n / 10 :=
        ih (m / 10) (Nat.div_lt_self (by omega) (by omega)) (n / 10) h1
      simp only [List.cons.injEq, and_true] at h2
      have hmod : m % 10 = n % 10 :=
        digitChar_injOn (m % 10) (Nat.mod_lt m (by omega)) (n % 10)
          (Nat.mod_lt n (by omega)) h2
      omega

theorem natRepr_inj {m n : Nat} (h : Nat.repr m = Nat.repr n) : m = n := by
  apply decimalDigits_inj
  rw [← toDigits_eq_decimalDigits, ← toDigits_eq_decimalDigits]
  have := congrArg String.data h
  simpa [Nat.repr, List.asString] using this

theorem msgId_inj {m n : Nat} (h : msgId m = msgId n) : m = n := by
  apply natRepr_inj
  have := congrArg String.data h
  simp only [msgId] at this
  have h2 : ("msg-".data ++ (Nat.repr m).data) = ("msg-".data ++ (Nat.repr n).data) := this
  have h3 := List.append_cancel_left h2
  exact String.ext h3

/-! ## Sequences of completed appends -/

/-- A sequence of completed `addMessage` calls: each draft comes with the
clock value observed at its append. -/
def appendAll (start : List Email) (drafts : List (Email × Nat)) : List Email :=
  drafts.foldl (fun msgs d => addMessage msgs d.1 d.2) start

/-- The records such a sequence produces when the store already holds
`k` messages: the i-th draft is finalized with identifier `msgId (k+i)`
and its own timestamp. -/
def finalizeFrom (k : Nat) : List (Email × Nat) → List Email
  | [] => []
  | (e, t) :: rest => { e with id := msgId k, time := t } :: finalizeFrom (k + 1) rest

theorem appendAll_eq :
    ∀ (drafts : List (Email × Nat)) (start : List Email),
      appendAll start drafts = start ++ finalizeFrom start.length drafts := by
  intro drafts
  induction drafts with
  | nil => intro start; simp [appendAll, finalizeFrom]
  | cons d rest ih =>
    intro start
    rcases d with ⟨e, t⟩
    have step : appendAll start ((e, t) :: rest) = appendAll (addMessage start e t) rest := rfl
    rw [step, ih, addMessage]
    simp [finalizeFrom, List.append_assoc]

theorem finalizeFrom_length (drafts : List (Email × Nat)) :
    ∀ k, (finalizeFrom k drafts).length = drafts.length := by
  induction drafts with
  | nil => intro k; rfl
  | cons d rest ih =>
    intro k
    rcases d with ⟨e, t⟩
    simp [finalizeFrom, ih]

theorem finalizeFrom_getElem (drafts : List (Email × Nat)) :
    ∀ (k i : Nat) (h : i < drafts.length),
      (finalizeFrom k drafts)[i]? =
        some { drafts[i].1 with id := msgId (k + i), time := drafts[i].2 } := by
  induction drafts with
  | nil => intro k i h; simp at h
  | cons d rest ih =>
    intro k i h
    rcases d with ⟨e, t⟩
    cases i with
    | zero => simp [finalizeFrom]
    | succ i =>
      have hi : i < rest.length := by simpa using Nat.lt_of_succ_lt_succ h
      have := ih (k + 1) i hi
      simp only [finalizeFrom, List.getElem?_cons_succ, List.getElem_cons_succ]
      rw [this]
      have : k + 1 + i = k + (i + 1) := by omega
      rw [this]

theorem emailById_eq_none :
    ∀ {msgs : List Email} {id : String},
      (∀ m ∈ msgs, m.id ≠ id) → emailById msgs id = none := by
  intro msgs
  induction msgs with
  | nil => intro id _; rfl
  | cons m rest ih =>
    intro id h
    have hm : m.id ≠ id := h m (by simp)
    simp only [emailById, if_neg hm]
    exact ih fun m' hm' => h m' (by simp [hm'])

theorem emailById_finalizeFrom (drafts : List (Email × Nat)) :
    ∀ (k i : Nat) (h : i < drafts.length),
      emailById (finalizeFrom k drafts) (msgId (k + i)) =
        some { drafts[i].1 with id := msgId (k + i), time := drafts[i].2 } := by
  induction drafts with
  | nil => intro k i h; simp at h
  | cons d rest ih =>
    intro k i h
    rcases d with ⟨e, t⟩
    cases i with
    | zero => simp [finalizeFrom, emailById]
    | succ i =>
      have hi : i < rest.length := by simpa using Nat.lt_of_succ_lt_succ h
      have hne : msgId k ≠ msgId (k + (i + 1)) := by
        intro heq
        have := msgId_inj heq
        omega
      simp only [finalizeFrom, emailById, if_neg hne, List.getElem_cons_succ]
      have := ih (k + 1) i hi
      have harith : k + 1 + i = k + (i + 1) := by omega
      rw [harith] at this
      exact this

/-! ## Claim theorems -/

/-- C1: the displayLabel (subject) extraction scans the body line by
line from the start; an empty line ends the header section with result
`""`; the first line whose part before the colon is case-insensitively
`"subject"` yields the remainder after the colon with surrounding
whitespace trimmed, and only the first match counts.  Concretely:
`"Subject: Hello\r\n\r\nBody"` gives `"Hello"`, `"just text"` gives
`""`, `"SUBJECT:   spaced  \r\n\r\n"` gives `"spaced"`, and with two
Subject lines only the first is used; moreover a body whose first line
is empty always yields `""`. -/
theorem parseSubject_spec :
    parseSubject "Subject: Hello\r\n\r\nBody" = "Hello" ∧
    parseSubject "just text" = "" ∧
    parseSubject "SUBJECT:   spaced  \r\n\r\n" = "spaced" ∧
    parseSubject "Subject: first\r\nSubject: second\r\n\r\nBody" = "first" ∧
    ∀ rest : List Char, parseSubjectList ('\n' :: rest) = "" :=
  ⟨by decide, by decide, by decide, by decide, fun rest => by
    rw [parseSubjectList_eq]
    simp [scanLine, splitFirstLine, dropCR, maxScanTokenSize]⟩

/-- C2: after `N` completed appends on an initially empty store with no
intervening clear, `Emails` returns exactly `N` records, in completion
order, the i-th carrying identifier `msgId i = "msg-" ++ i` derived from
the store length at the moment of its append. -/
theorem emails_after_appends (drafts : List (Email × Nat)) :
    (Emails (appendAll [] drafts)).length = drafts.length ∧
    ∀ (i : Nat) (h : i < drafts.length),
      (Emails (appendAll [] drafts))[i]? =
        some { drafts[i].1 with id := msgId i, time := drafts[i].2 } := by
  rw [Emails, appendAll_eq, List.nil_append, List.length_nil]
  refine ⟨finalizeFrom_length drafts 0, ?_⟩
  intro i h
  rw [finalizeFrom_getElem drafts 0 i h, Nat.zero_add]

/-- Sample draft messages used by the concrete witnesses below. -/
def sampleDraft (s : String) : Email :=
  { id := "", fromAddr := "a@x.com", toAddrs := ["b@x.com"],
    subject := s, body := "Subject: " ++ s, time := 0 }

theorem emails_after_appends_witness :
    1 < [(sampleDraft "T0", 3), (sampleDraft "T1", 4)].length ∧
      (Emails (appendAll [] [(sampleDraft "T0", 3), (sampleDraft "T1", 4)]))[1]? =
        some { sampleDraft "T1" with id := msgId 1, time := 4 } :=
  ⟨by decide,
    (emails_after_appends [(sampleDraft "T0", 3), (sampleDraft "T1", 4)]).2 1 (by decide)⟩

/-- C3: `Clear` followed by a single append always yields a one-element
store whose sole record has identifier `"msg-0"`: the identifier is
computed from the post-clear collection length, so the sequence restarts
at 0 after every clear. -/
theorem clear_then_append (msgs : List Email) (e : Email) (t : Nat) :
    addMessage (Clear msgs) e t = [{ e with id := "msg-0", time := t }] := by
  simp [addMessage, Clear, show msgId 0 = "msg-0" from by decide]

/-- C4: when reading the body payload fails, `Data` aborts the
transaction with a wrapped error, appends nothing to the store, leaves
the session as it was, and returns the error to the connection layer. -/
theorem data_read_failure (msgs : List Email) (sess : Session) (e : String) (now : Nat) :
    sessionData msgs sess (.error e) now =
      ((msgs, sess), .error ("failed to read email data: " ++ e)) := rfl

/-- C5: `Email` (get-by-identifier) returns exactly the record that an
append sequence produced for any identifier currently present, and `none`
rather than an error for any identifier not present — in particular for
every identifier after a clear. -/
theorem emailById_spec (drafts : List (Email × Nat)) (id : String) :
    (∀ (i : Nat) (h : i < drafts.length),
        emailById (appendAll [] drafts) (msgId i) =
          some { drafts[i].1 with id := msgId i, time := drafts[i].2 }) ∧
    ((∀ m ∈ appendAll [] drafts, m.id ≠ id) →
        emailById (appendAll [] drafts) id = none) ∧
    (∀ msgs : List Email, emailById (Clear msgs) id = none) := by
  refine ⟨?_, ?_, fun _ => rfl⟩
  · intro i h
    rw [appendAll_eq, List.nil_append, List.length_nil]
    have := emailById_finalizeFrom drafts 0 i h
    rwa [Nat.zero_add] at this
  · intro h
    exact emailById_eq_none h

theorem emailById_spec_witness :
    (0 < [(sampleDraft "T0", 3)].length ∧
      emailById (appendAll [] [(sampleDraft "T0", 3)]) (msgId 0) =
        some { sampleDraft "T0" with id := msgId 0, time := 3 }) ∧
    ((∀ m ∈ appendAll [] [(sampleDraft "T0", 3)], m.id ≠ "msg-9") ∧
      emailById (appendAll [] [(sampleDraft "T0", 3)]) "msg-9" = none) :=
  ⟨⟨by decide, (emailById_spec [(sampleDraft "T0", 3)] "msg-9").1 0 (by decide)⟩,
    ⟨by decide, (emailById_spec [(sampleDraft "T0", 3)] "msg-9").2.1 (by decide)⟩⟩

/-- C8: `Reset` sets the session's sender to `""` and its recipient list
to the empty sequence, leaving every record already in the store
untouched. -/
theorem reset_spec (msgs : List Email) (sess : Session) :
    resetStep msgs sess = (msgs, { fromAddr := "", toAddrs := [] }) := rfl

/-- C9: a completed `Data` appends one record but leaves the session's
sender and recipients unchanged, so a second transaction completed
without an intervening reset records every recipient declared since the
last reset, including the first transaction's. -/
theorem data_keeps_session (msgs : List Email) (sess : Session)
    (r1 r2 b1 b2 : String) (t1 t2 : Nat) :
    (sessionData msgs (sessionRcpt sess r1) (.ok b1) t1).1.2 = sessionRcpt sess r1 ∧
    ((sessionData (sessionData msgs (sessionRcpt sess r1) (.ok b1) t1).1.1
        (sessionRcpt (sessionData msgs (sessionRcpt sess r1) (.ok b1) t1).1.2 r2)
        (.ok b2) t2).1.1 =
      msgs ++
        [{ id := msgId msgs.length, fromAddr := sess.fromAddr,
           toAddrs := sess.toAddrs ++ [r1], subject := parseSubject b1,
           body := b1, time := t1 },
         { id := msgId (msgs.length + 1), fromAddr := sess.fromAddr,
           toAddrs := sess.toAddrs ++ [r1] ++ [r2], subject := parseSubject b2,
           body := b2, time := t2 }]) := by
  constructor
  · rfl
  · simp [sessionData, sessionRcpt, addMessage]

/-! ## C6: GET /api/v1/emails/{id} -/

/-- A one-message store used by concrete witnesses. -/
def sampleStore : List Email := appendAll [] [(sampleDraft "T0", 3)]

/-- C6 counterexample: for the empty id the handler responds with status
400 (`http.StatusBadRequest`), not 404 as the claim states. -/
theorem handleGetEmail_empty_id_counterexample :
    (handleGetEmail [] "").status = 400 ∧ ¬(handleGetEmail [] "").status = 404 := by
  decide

/-- C6 (amended): a found id yields 200 with the JSON email; an empty id
yields 400 with a plain-text error; a non-empty unknown id yields 404
with a plain-text error. -/
theorem handleGetEmail_spec (msgs : List Email) (id : String) :
    (id = "" → handleGetEmail msgs id = ⟨400, none, some "Email ID is required"⟩) ∧
    (id ≠ "" → emailById msgs id = none →
      handleGetEmail msgs id = ⟨404, none, some "Email not found"⟩) ∧
    (∀ e : Email, id ≠ "" → emailById msgs id = some e →
      handleGetEmail msgs id = ⟨200, some e, none⟩) := by
  refine ⟨fun h => ?_, fun h hn => ?_, fun e h hs => ?_⟩
  · simp [handleGetEmail, h]
  · simp [handleGetEmail, h, hn]
  · simp [handleGetEmail, h, hs]

theorem handleGetEmail_spec_witness :
    handleGetEmail sampleStore "" = ⟨400, none, some "Email ID is required"⟩ ∧
    (("msg-9" : String) ≠ "" ∧ emailById sampleStore "msg-9" = none ∧
      handleGetEmail sampleStore "msg-9" = ⟨404, none, some "Email not found"⟩) ∧
    (("msg-0" : String) ≠ "" ∧
      emailById sampleStore "msg-0" =
        some { sampleDraft "T0" with id := "msg-0", time := 3 } ∧
      handleGetEmail sampleStore "msg-0" =
        ⟨200, some { sampleDraft "T0" with id := "msg-0", time := 3 }, none⟩) :=
  ⟨(handleGetEmail_spec sampleStore "").1 rfl,
    ⟨by decide, by decide,
      (handleGetEmail_spec sampleStore "msg-9").2.1 (by decide) (by decide)⟩,
    ⟨by decide, by decide,
      (handleGetEmail_spec sampleStore "msg-0").2.2
        { sampleDraft "T0" with id := "msg-0", time := 3 } (by decide) (by decide)⟩⟩

/-! ## C7: long header lines -/

/-- A `Subject` header line of 70008 bytes — far below the SMTP server's
16 MiB `MaxLineLength`, far above the scanner's 64 KiB token limit. -/
def longSubjectLine : List Char := "Subject:".toList ++ List.replicate 70000 'a'

theorem dropWhile_replicate_char {p : Char → Bool} {a : Char} (hp : p a = false) :
    ∀ n, List.dropWhile p (List.replicate n a) = List.replicate n a := by
  intro n
  induction n with
  | zero => rfl
  | succ n ih => simp [List.replicate_succ, List.dropWhile_cons, hp]

theorem trimSpace_replicate_a (n : Nat) :
    trimSpace (List.replicate n 'a') = List.replicate n 'a' := by
  have hp : goIsSpace 'a' = false := by decide
  simp [trimSpace, dropWhile_replicate_char hp, List.reverse_replicate]

theorem longSubjectLine_length : longSubjectLine.length = 70008 := by
  show ("Subject:".toList ++ List.replicate 70000 'a').length = 70008
  rw [List.length_append, List.length_replicate,
    show ("Subject:".toList).length = 8 from by decide]

theorem longSubjectLine_no_newline : '\n' ∉ longSubjectLine := by
  intro hmem
  rcases List.mem_append.mp hmem with h | h
  · exact absurd h (by decide)
  · rcases List.mem_replicate.mp h with ⟨-, h2⟩
    exact absurd h2 (by decide)

theorem scanLine_longSubjectLine : scanLine longSubjectLine = none := by
  have hnn : longSubjectLine ≠ [] := by
    intro h
    have := longSubjectLine_length
    rw [h] at this
    simp at this
  have hne : longSubjectLine.isEmpty = false := by
    simpa [List.isEmpty_iff] using hnn
  have hsplit := splitFirstLine_no_newline longSubjectLine longSubjectLine_no_newline
  simp only [scanLine, hne, Bool.false_eq_true, if_false, hsplit]
  rw [if_neg]
  rw [longSubjectLine_length]
  decide

/-- C7 counterexample: a message body whose single Subject header line is
70008 bytes long — within the configured 16 MiB line-length limit — has
its subject extracted as `""`, not as the line's (nonempty) trimmed
subject value, because `parseSubject`'s scanner refuses tokens above
64 KiB. -/
theorem long_subject_line_counterexample :
    longSubjectLine.length ≤ maxLineLength ∧
    parseSubject longSubjectLine.asString = "" ∧
    ¬(trimSpace (List.replicate 70000 'a')).asString = "" := by
  refine ⟨?_, ?_, ?_⟩
  · rw [longSubjectLine_length]; decide
  · have h : parseSubject longSubjectLine.asString = parseSubjectList longSubjectLine := rfl
    rw [h, parseSubjectList_scan_none scanLine_longSubjectLine]
  · rw [trimSpace_replicate_a]
    intro h
    have hd : List.replicate 70000 'a' = ([] : List Char) := congrArg String.data h
    have hl := congrArg List.length hd
    rw [List.length_replicate] at hl
    exact absurd hl (by decide)

/-- C7 (amended): the SMTP intake's configured line limit is 16 MiB, and
subject extraction does recover the trimmed subject value — but only for
subject header lines that fit the scan buffer, i.e. whose subject text is
at most 65526 bytes; completed transactions are appended whatever the
body.  (The counterexample shows extraction yields `""` beyond that.) -/
theorem parseSubject_within_scan_limit (s rest : List Char) (hn : '\n' ∉ s)
    (hlen : s.length ≤ 65526) :
    parseSubjectList ("Subject:".toList ++ s ++ '\r' :: '\n' :: rest) =
      (trimSpace s).asString ∧
    maxLineLength = 16 * 1024 * 1024 ∧
    ∀ (msgs : List Email) (sess : Session) (body : String) (now : Nat),
      ((sessionData msgs sess (.ok body) now).1.1).length = msgs.length + 1 := by
  refine ⟨?_, rfl, fun msgs sess body now => by simp [sessionData, addMessage]⟩
  have hline : '\n' ∉ "Subject:".toList ++ s ++ ['\r'] := by
    intro hmem
    rcases List.mem_append.mp hmem with h | h
    · rcases List.mem_append.mp h with h' | h'
      · exact absurd h' (by decide)
      · exact hn h'
    · simp at h
  have hassoc : "Subject:".toList ++ s ++ '\r' :: '\n' :: rest =
      ("Subject:".toList ++ s ++ ['\r']) ++ '\n' :: rest := by
    simp [List.append_assoc]
  have hsplit : splitFirstLine ("Subject:".toList ++ s ++ '\r' :: '\n' :: rest) =
      ("Subject:".toList ++ s ++ ['\r'], some rest) := by
    rw [hassoc]
    exact splitFirstLine_append _ rest hline
  have htoklen : ("Subject:".toList ++ s ++ ['\r']).length = 9 + s.length := by
    have h8 : ("Subject:".toList).length = 8 := by decide
    simp [List.length_append, h8]
    omega
  have hne : ("Subject:".toList ++ s ++ '\r' :: '\n' :: rest).isEmpty = false := by
    have : "Subject:".toList ++ s ++ '\r' :: '\n' :: rest ≠ [] := by
      intro h
      have := congrArg List.length h
      simp [List.length_append] at this
    simp [List.isEmpty_iff, this]
  have hdrop : dropCR ("Subject:".toList ++ s ++ ['\r']) = "Subject:".toList ++ s := by
    rw [dropCR, if_pos (by rw [List.getLast?_concat]), List.dropLast_concat]
  have hscan : scanLine ("Subject:".toList ++ s ++ '\r' :: '\n' :: rest) =
      some ("Subject:".toList ++ s, rest) := by
    simp only [scanLine, hne, Bool.false_eq_true, if_false, hsplit]
    rw [if_pos, hdrop]
    rw [htoklen, maxScanTokenSize]
    omega
  rw [parseSubjectList_scan_some hscan]
  have hnnil : ¬("Subject:".toList ++ s = []) := by
    intro h
    have := congrArg List.length h
    simp [List.length_append] at this
  rw [if_neg hnnil]
  have hlower : ("Subject:".toList ++ s).map Char.toLower =
      subjectKey ++ s.map Char.toLower := by
    rw [List.map_append]
    exact congrArg (· ++ s.map Char.toLower) (by decide)
  have hpre : subjectKey.isPrefixOf (("Subject:".toList ++ s).map Char.toLower) = true := by
    rw [hlower]
    exact List.isPrefixOf_iff_prefix.mpr (List.prefix_append _ _)
  rw [if_pos hpre]
  have hdrop8 : ("Subject:".toList ++ s).drop 8 = s := by
    rw [show (8 : Nat) = ("Subject:".toList).length from by decide, List.drop_left]
  rw [hdrop8]

theorem parseSubject_within_scan_limit_witness :
    ('\n' ∉ " hi ".toList ∧ (" hi ".toList).length ≤ 65526) ∧
    (parseSubjectList ("Subject:".toList ++ " hi ".toList ++ '\r' :: '\n' :: "B".toList) =
        (trimSpace " hi ".toList).asString ∧
      maxLineLength = 16 * 1024 * 1024 ∧
      ∀ (msgs : List Email) (sess : Session) (body : String) (now : Nat),
        ((sessionData msgs sess (.ok body) now).1.1).length = msgs.length + 1) :=
  ⟨⟨by decide, by decide⟩,
    parseSubject_within_scan_limit " hi ".toList "B".toList (by decide) (by decide)⟩

/-! ## C10: port configuration precedence -/

/-- C10: a passed flag wins over the environment; with no flag, a
non-empty environment value that scans as an integer overrides the
compiled default; an unset or unscannable environment value leaves the
default.  The same holds for the library's `getEnvInt` with
`strconv.Atoi` in place of the scan. -/
theorem port_resolution_spec (d n v : Int) (env : String) :
    resolvePort true v env = v ∧
    (env = "" → resolvePort false d env = d) ∧
    (sscanfInt env = none → resolvePort false d env = d) ∧
    (env ≠ "" → sscanfInt env = some n → resolvePort false d env = n) ∧
    (env = "" → getEnvInt env d = d) ∧
    (atoi env = none → getEnvInt env d = d) ∧
    (env ≠ "" → atoi env = some n → getEnvInt env d = n) := by
  refine ⟨rfl, fun h => ?_, fun h => ?_, fun h hs => ?_, fun h => ?_, fun h => ?_,
    fun h ha => ?_⟩
  · simp [resolvePort, h]
  · by_cases he : env = "" <;> simp [resolvePort, he, h]
  · simp [resolvePort, h, hs]
  · simp [getEnvInt, h]
  · by_cases he : env = "" <;> simp [getEnvInt, he, h]
  · simp [getEnvInt, h, ha]

theorem port_resolution_spec_witness :
    resolvePort true 7777 "2525" = 7777 ∧
    (("2525" : String) ≠ "" ∧ sscanfInt "2525" = some 2525 ∧
      resolvePort false 1025 "2525" = 2525) ∧
    (sscanfInt "abc" = none ∧ resolvePort false 1025 "abc" = 1025) ∧
    (atoi "x7" = none ∧ getEnvInt "x7" 8025 = 8025) ∧
    (("9000" : String) ≠ "" ∧ atoi "9000" = some 9000 ∧ getEnvInt "9000" 8025 = 9000) :=
  ⟨(port_resolution_spec 1025 2525 7777 "2525").1,
    ⟨by decide, by decide,
      (port_resolution_spec 1025 2525 7777 "2525").2.2.2.1 (by decide) (by decide)⟩,
    ⟨by decide, (port_resolution_spec 1025 2525 7777 "abc").2.2.1 (by decide)⟩,
    ⟨by decide, (port_resolution_spec 8025 0 0 "x7").2.2.2.2.2.1 (by decide)⟩,
    ⟨by decide, by decide,
      (port_resolution_spec 8025 9000 0 "9000").2.2.2.2.2.2 (by decide) (by decide)⟩⟩

end Mailcatcher
